import Mathlib

/-!
Verification of the object-detection dispatch subsystem of the frigate
repository: the shared-memory region manager, the detection worker and
client, and the majordomo-style broker.  The broker, worker and client
implementations are not shipped under `src/` (only their test file is),
so those components are modelled from the specification; the test file
`frigate/test/test_object_detector.py` is used as the authority where it
constrains behaviour (shared-memory sizes, the `DETECT_NO_SHM` handler,
the detection filtering vectors).
-/

namespace Frigate

/-! ### Association-list helpers (broker bookkeeping is keyed by opaque ids) -/

/-- Lookup the first binding of key `k` in an association list. -/
def alookup {α β : Type} [DecidableEq α] (k : α) : List (α × β) → Option β
  | [] => none
  | (a, b) :: rest => if a = k then some b else alookup k rest

/-- Replace the first binding of `k` (or append a fresh one). -/
def aupdate {α β : Type} [DecidableEq α] (k : α) (v : β) : List (α × β) → List (α × β)
  | [] => [(k, v)]
  | (a, b) :: rest => if a = k then (k, v) :: rest else (a, b) :: aupdate k v rest

/-- Remove every binding of `k`. -/
def aremove {α β : Type} [DecidableEq α] (k : α) : List (α × β) → List (α × β)
  | [] => []
  | (a, b) :: rest => if a = k then aremove k rest else (a, b) :: aremove k rest

/-! ### Shared Memory Region Manager

Modelled from the spec: the `multiprocessing.shared_memory` manager used by
`start_broker` and the worker/client is not under `src/`; §4.2 of the spec
gives its contract (`create` fails with `AlreadyExists` on a live name,
`attach` fails with `NotFound` on a missing name, regions are raw byte
buffers of a fixed size). -/

inductive ShmError : Type
  | AlreadyExists : ShmError
  | NotFound : ShmError
deriving DecidableEq, Repr

/-- A named fixed-size shared region: a raw byte buffer. -/
structure ShmRegion : Type where
  size : Nat
  buf : List Nat
deriving DecidableEq, Repr

/-- The set of live named regions. -/
structure ShmState : Type where
  regions : List (String × ShmRegion)
deriving Repr

/-- A region with this name is currently live. -/
def ShmState.live (st : ShmState) (name : String) : Bool :=
  (alookup name st.regions).isSome

/-- `create(name, size)`: fails with `AlreadyExists` if a region with that
name is live; otherwise allocates a zero-filled buffer of `size` bytes. -/
def ShmState.create (st : ShmState) (name : String) (size : Nat) :
    Except ShmError ShmState :=
  if st.live name then .error .AlreadyExists
  else .ok ⟨(name, ⟨size, List.replicate size 0⟩) :: st.regions⟩

/-- `attach(name)`: fails with `NotFound` if no region with that name exists;
otherwise yields the region. -/
def ShmState.attach (st : ShmState) (name : String) : Except ShmError ShmRegion :=
  match alookup name st.regions with
  | some r => .ok r
  | none => .error .NotFound

/-- `destroy(handle)`: unlinks the region; a later `attach` by name fails. -/
def ShmState.destroy (st : ShmState) (name : String) : ShmState :=
  ⟨aremove name st.regions⟩

/-- Write `bytes` at offset 0 of the named region (the producer side copying
a tensor into its camera's region).  The buffer keeps its fixed size: the
written bytes are truncated to the region size and padded with the previous
tail. -/
def ShmState.write (st : ShmState) (name : String) (bytes : List Nat) : ShmState :=
  match alookup name st.regions with
  | some r =>
      ⟨aupdate name ⟨r.size, bytes.take r.size ++ r.buf.drop (bytes.take r.size).length⟩
        st.regions⟩
  | none => st

/-- Read `count` bytes from offset 0 of the named region (the consumer side
reading a known shape/dtype). -/
def ShmState.read (st : ShmState) (name : String) (count : Nat) : Option (List Nat) :=
  (alookup name st.regions).map (fun r => r.buf.take count)

/-! ### Tensors

A numpy array is modelled as a shape together with its row-major flat data
(uint8 values as `Nat`). -/

structure NpTensor : Type where
  shape : List Nat
  data : List Nat
deriving DecidableEq, Repr

/-- Number of elements of a tensor of this shape. -/
def shapeCount (shape : List Nat) : Nat := shape.prod

/-- `np.transpose(t, (0, 3, 1, 2))`: NHWC to NCHW.  The element at
`[iN, iC, iH, iW]` of the result is the element at `[iN, iH, iW, iC]` of the
input.  Tensors that are not 4-dimensional are returned unchanged. -/
def transposeNHWCtoNCHW (t : NpTensor) : NpTensor :=
  match t.shape with
  | [n, h, w, c] =>
      ⟨[n, c, h, w],
        (List.range n).flatMap (fun iN =>
          (List.range c).flatMap (fun iC =>
            (List.range h).flatMap (fun iH =>
              (List.range w).map (fun iW =>
                t.data.getD (((iN * h + iH) * w + iW) * c + iC) 0))))⟩
  | _ => t

/-- Serialize a tensor to raw bytes (uint8 data is its own byte encoding). -/
def serializeTensor (t : NpTensor) : List Nat := t.data

/-- Reconstruct a tensor of a known shape from raw bytes
(`np.ndarray(shape, dtype=uint8, buffer=...)`). -/
def deserializeTensor (shape : List Nat) (bytes : List Nat) : NpTensor :=
  ⟨shape, bytes.take (shapeCount shape)⟩

/-! ### Detection data model

Modelled from the spec: `frigate.detectors` (detection backends, the worker
and the client) is not under `src/`; §6 of the spec gives the backend
capability (`detect_raw(tensor) -> raw_rows`, each row
`[class_id, score, y1, x1, y2, x2]` with normalized float fields, here
modelled as rationals) and §9 the type-keyed backend selection.  The tests
in `src/frigate/test/test_object_detector.py` pin the filtering and
transposition behaviour. -/

/-- A raw detection row `[class_id, score, y1, x1, y2, x2]`. -/
structure RawRow : Type where
  class_id : Nat
  score : Rat
  box : Rat × Rat × Rat × Rat
deriving DecidableEq, Repr

/-- A detection backend: the opaque `detect_raw` capability. -/
def DetectionBackend : Type := NpTensor → List RawRow

/-- `InputTensorEnum`: the model's expected input tensor layout. -/
inductive InputTensorEnum : Type
  | nhwc : InputTensorEnum
  | nchw : InputTensorEnum
deriving DecidableEq, Repr

/-- The configured detector backend kinds (`DetectorTypeEnum`). -/
inductive DetectorTypeEnum : Type
  | cpu : DetectorTypeEnum
  | edgetpu : DetectorTypeEnum
  | openvino : DetectorTypeEnum
  | rknn : DetectorTypeEnum
deriving DecidableEq, Repr

/-- The slice of `ModelConfig` the dispatch subsystem consumes. -/
structure ModelConfig : Type where
  height : Nat := 320
  width : Nat := 320
  input_tensor : InputTensorEnum := .nhwc

/-- The slice of `DetectorConfig` the worker consumes. -/
structure DetectorConfig : Type where
  type : DetectorTypeEnum
  model : ModelConfig

/-- The `api_types` registry: a mapping from a detector type tag to a
backend constructor. -/
def Registry : Type := List (DetectorTypeEnum × (DetectorConfig → DetectionBackend))

/-- `api_types[det_config.type](det_config)`: look up the constructor
registered for the configured type and call it on the detector config;
`none` when the type has no registered backend. -/
def selectBackend (reg : Registry) (cfg : DetectorConfig) : Option DetectionBackend :=
  (alookup cfg.type reg).map (fun ctor => ctor cfg)

/-- As `selectBackend`, but also reporting the constructor invocations that
were made, as `(type tag, argument)` pairs. -/
def selectBackendCalls (reg : Registry) (cfg : DetectorConfig) :
    Option DetectionBackend × List (DetectorTypeEnum × DetectorConfig) :=
  match alookup cfg.type reg with
  | some ctor => (some (ctor cfg), [(cfg.type, cfg)])
  | none => (none, [])

/-! ### The detection worker -/

/-- `ObjectDetectionWorker` after construction: one bound backend instance,
the model config, and the label table. -/
structure ObjectDetectionWorker : Type where
  detector_config : DetectorConfig
  detect_api : DetectionBackend
  labels : List String

/-- Construction-time effects of `ObjectDetectionWorker.__init__`: the label
files read through `load_labels` and the backend constructor invocations. -/
structure BuildLog : Type where
  labelLoads : List String
  backendCalls : List (DetectorTypeEnum × DetectorConfig)

/-- Modelled from the spec: `ObjectDetectionWorker.__init__` (missing from
`src/`) resolves the backend constructor registered for the configured type,
calls it once on the detector config, and loads the label table once via
`load_labels`. -/
def buildWorker (reg : Registry) (load_labels : String → List String)
    (cfg : DetectorConfig) (labelPath : String) :
    Option ObjectDetectionWorker × BuildLog :=
  match selectBackendCalls reg cfg with
  | (some api, calls) =>
      (some ⟨cfg, api, load_labels labelPath⟩, ⟨[labelPath], calls⟩)
  | (none, calls) => (none, ⟨[labelPath], calls⟩)

/-- The tensor actually handed to the backend: transposed to NCHW when the
model's `input_tensor` layout is `nchw`, unchanged under `nhwc`. -/
def ObjectDetectionWorker.layoutInput (w : ObjectDetectionWorker) (t : NpTensor) :
    NpTensor :=
  match w.detector_config.model.input_tensor with
  | .nchw => transposeNHWCtoNCHW t
  | .nhwc => t

/-- Modelled from the spec: `ObjectDetectionWorker.detect_raw` (missing from
`src/`) applies the configured layout adjustment and invokes the bound
backend's `detect_raw` once; the pair returned is (tensor passed to the
backend, backend result). -/
def ObjectDetectionWorker.detect_raw_traced (w : ObjectDetectionWorker)
    (t : NpTensor) : NpTensor × List RawRow :=
  let passed := w.layoutInput t
  (passed, w.detect_api passed)

/-- `ObjectDetectionWorker.detect_raw`: the backend result alone. -/
def ObjectDetectionWorker.detect_raw (w : ObjectDetectionWorker) (t : NpTensor) :
    List RawRow :=
  (w.detect_raw_traced t).2

/-- A scored, labelled detection `(label, score, box)`. -/
abbrev Detection : Type := String × Rat × (Rat × Rat × Rat × Rat)

/-- Modelled from the spec: `ObjectDetectionWorker.detect` (missing from
`src/`) keeps exactly the raw rows whose score is at least the threshold, in
their original order, and maps each kept row through the label table. -/
def ObjectDetectionWorker.detect (w : ObjectDetectionWorker) (t : NpTensor)
    (threshold : Rat) : List Detection :=
  ((w.detect_raw t).filter (fun d => threshold ≤ d.score)).map
    (fun d => (w.labels.getD d.class_id "unknown", d.score, d.box))

/-! ### The detection client's wait loop

Modelled from the spec: `ObjectDetectionClient.detect` (missing from `src/`)
blocks until a reply whose correlation id matches the request arrives, or
fails with `DetectionTimeout` once the timeout budget is exhausted; replies
with foreign correlation ids (stale completions of abandoned requests) are
dropped.  The incoming replies are modelled as the list of
(correlation id, payload) messages the transport delivers, and the timeout
as a poll budget. -/

inductive DetectError : Type
  | DetectionTimeout : DetectError
deriving DecidableEq, Repr

def awaitReply (corr : Nat) : Nat → List (Nat × List Nat) → Except DetectError (List Nat)
  | 0, _ => .error .DetectionTimeout
  | _ + 1, [] => .error .DetectionTimeout
  | fuel + 1, (c, p) :: rest =>
      if c = corr then .ok p else awaitReply corr fuel rest

/-! ### The detection round trip (shared-memory vs inline payload)

Modelled from the spec: the end-to-end detection paths exercised by
`TestLocalObjectDetector.test_socket_client_broker_worker` (the client,
worker and broker bodies are missing from `src/`).  §4.4/§4.5 of the spec:
the worker decodes the tensor either by attaching the named shared region
and reading the known shape/dtype, or by deserializing inline bytes; it
runs the backend and writes the raw rows into the `out-<name>` region.
The region sizes (`512*512*3` input bytes, `20*6` float32 output words)
are those allocated by `start_broker` in the test file. -/

inductive Transport : Type
  | ipc : Transport
  | tcp : Transport
deriving DecidableEq, Repr

/-- The broker bind addresses used by the test. -/
def transportAddress : Transport → String
  | .ipc => "ipc:" ++ "//queue_broker.ipc"
  | .tcp => "tcp:" ++ "//127.0.0.1:5555"

/-- §4.1: either transport delivers discrete multi-frame messages
preserving frame boundaries and content. -/
def transportDeliver (_tr : Transport) (frames : List (List Nat)) : List (List Nat) :=
  frames

/-- Size in bytes of a camera input region (`512 * 512 * 3`). -/
def inputShmSize : Nat := 512 * 512 * 3

/-- Number of float32 words in an `out-<name>` region (`20 * 6`). -/
def outFloatCount : Nat := 20 * 6

/-- Raw rows flattened into the float words written to the out region. -/
def flattenRows (rows : List RawRow) : List Rat :=
  rows.flatMap (fun r =>
    [(r.class_id : Rat), r.score, r.box.1, r.box.2.1, r.box.2.2.1, r.box.2.2.2])

/-- Observable outcome of one detection round: the float words in the
`out-<name>` region and the raw rows of the reply. -/
structure DetectOutcome : Type where
  outRegion : List Rat
  reply : List RawRow
deriving DecidableEq, Repr

/-- The shared-memory path: the region is created at broker start, the
camera pipeline writes the frame into it, the client sends a handle-only
request, and the worker attaches the region by the service name and reads
the known shape/dtype. -/
def runShmDetect (tr : Transport) (backend : DetectionBackend) (model : ModelConfig)
    (camera : String) (t : NpTensor) : Option DetectOutcome :=
  match ShmState.create ⟨[]⟩ camera inputShmSize with
  | .error _ => none
  | .ok st0 =>
    let st1 := st0.write camera (serializeTensor t)
    match transportDeliver tr [[]] with
    | [_handleFrame] =>
      match st1.attach camera with
      | .error _ => none
      | .ok _ =>
        let shape := [1, model.height, model.width, 3]
        match st1.read camera (shapeCount shape) with
        | none => none
        | some bytes =>
          let rows := backend (deserializeTensor shape bytes)
          some ⟨(flattenRows rows).take outFloatCount, rows⟩
    | _ => none

/-- The inline path: the client serializes the tensor into the request body
and the worker deserializes it from the delivered frames; no shared region
is involved. -/
def runInlineDetect (tr : Transport) (backend : DetectionBackend) (model : ModelConfig)
    (_camera : String) (t : NpTensor) : Option DetectOutcome :=
  match transportDeliver tr [serializeTensor t] with
  | [bytes] =>
    let shape := [1, model.height, model.width, 3]
    let rows := backend (deserializeTensor shape bytes)
    some ⟨(flattenRows rows).take outFloatCount, rows⟩
  | _ => none

/-! ### The majordomo broker

Modelled from the spec: `frigate.majortomo.Broker` is not under `src/`.
§3/§4.3 of the spec give its data model (per-Service idle-worker and
pending-request queues, per-worker in-flight slot) and event handling
(READY, HEARTBEAT, REPLY, DISCONNECT, client REQUEST, with head-to-head
pairing after every event and request-handler payload substitution before
enqueueing).  Worker and client identities are opaque connection-layer
addresses, modelled as `Nat`; service and command names are strings. -/

/-- A pending client request as the broker tracks it: originating client
identity, correlation id, command, and (possibly handler-transformed)
payload frames. -/
structure Request : Type where
  client : Nat
  corr : Nat
  cmd : String
  payload : List (List Nat)
deriving DecidableEq, Repr

/-- A registered request handler: `(service_name, body) ↦ body`. -/
def Handler : Type := String → List (List Nat) → List (List Nat)

/-- The broker's registered request handlers, keyed by command name. -/
def Handlers : Type := List (String × Handler)

/-- Payload substitution: apply the handler registered for the command, if
any; otherwise leave the payload unchanged. -/
def applyHandler (hs : Handlers) (s : String) (cmd : String)
    (p : List (List Nat)) : List (List Nat) :=
  match alookup cmd hs with
  | some h => h s p
  | none => p

/-- `detect_no_shm` from `start_broker` in the test file: keep the first two
body frames and replace the rest with the bytes of the shared region named
by the service. -/
def detect_no_shm (shms : List (String × ShmRegion)) : Handler :=
  fun service body =>
    body.take 2 ++ [((alookup service shms).getD ⟨0, []⟩).buf]

/-- Broker-side worker record: owning service and current in-flight
request. -/
structure WorkerRec : Type where
  service : String
  inflight : Option Request
deriving DecidableEq, Repr

/-- Per-service routing state: FIFO idle-worker queue and FIFO
pending-request queue. -/
structure ServiceRec : Type where
  idle : List Nat
  pending : List Request
deriving DecidableEq, Repr

/-- The broker's bookkeeping state. -/
structure BrokerState : Type where
  workers : List (Nat × WorkerRec)
  services : List (String × ServiceRec)
deriving DecidableEq, Repr

def initBroker : BrokerState := ⟨[], []⟩

/-- The events the broker reacts to. -/
inductive Event : Type
  | ready (w : Nat) (svc : String)
  | heartbeat (w : Nat)
  | reply (w : Nat) (payload : List (List Nat))
  | disconnect (w : Nat)
  | request (svc : String) (client : Nat) (corr : Nat) (cmd : String)
      (payload : List (List Nat))
deriving DecidableEq, Repr

/-- The broker's observable outputs: requests forwarded to workers, replies
accepted from workers, worker registrations torn down, and replies routed
back to clients. -/
inductive Action : Type
  | forward (w : Nat) (r : Request)
  | workerReply (w : Nat)
  | sessionReset (w : Nat)
  | clientReply (c : Nat) (corr : Nat) (payload : List (List Nat))
deriving DecidableEq, Repr

/-- The routing state of a service (empty queues when not yet created). -/
def getService (st : BrokerState) (s : String) : ServiceRec :=
  (alookup s st.services).getD ⟨[], []⟩

/-- Pair the head of the idle-worker queue with the head of the
pending-request queue: pop both, mark the worker in-flight, and forward the
request. -/
def tryPair (st : BrokerState) (s : String) : BrokerState × List Action :=
  let sr := getService st s
  match sr.idle, sr.pending with
  | w :: idles, r :: pends =>
      (⟨aupdate w ⟨s, some r⟩ st.workers, aupdate s ⟨idles, pends⟩ st.services⟩,
       [.forward w r])
  | _, _ => (st, [])

/-- Register the worker idle at the service: record ⟨service, no in-flight⟩
and append the identity to the service's idle queue. -/
def pushIdle (st : BrokerState) (w : Nat) (s : String) : BrokerState :=
  ⟨aupdate w ⟨s, none⟩ st.workers,
   aupdate s ⟨(getService st s).idle ++ [w], (getService st s).pending⟩
     st.services⟩

/-- Append a request to the service's pending queue. -/
def pushPending (st : BrokerState) (s : String) (r : Request) : BrokerState :=
  ⟨st.workers,
   aupdate s ⟨(getService st s).idle, (getService st s).pending ++ [r]⟩
     st.services⟩

/-- Destroy a worker's registration: drop its record and remove it from its
service's idle queue. -/
def removeWorker (st : BrokerState) (w : Nat) : BrokerState :=
  match alookup w st.workers with
  | some rec =>
      let sr := getService st rec.service
      ⟨aremove w st.workers,
       aupdate rec.service ⟨sr.idle.filter (fun x => decide (x ≠ w)), sr.pending⟩
         st.services⟩
  | none => st

/-- One broker event.  READY (re)registers the worker idle at its service;
HEARTBEAT refreshes liveness only; REPLY from an in-flight worker routes
the reply to the recorded client and returns the worker to the idle queue;
DISCONNECT destroys the registration; a client REQUEST is
handler-transformed, enqueued, and pairing is attempted. -/
def step (hs : Handlers) (st : BrokerState) : Event → BrokerState × List Action
  | .ready w s =>
      let resetActs := if (alookup w st.workers).isSome
        then [Action.sessionReset w] else []
      let p := tryPair (pushIdle (removeWorker st w) w s) s
      (p.1, resetActs ++ p.2)
  | .heartbeat _ => (st, [])
  | .reply w payload =>
      match alookup w st.workers with
      | some rec =>
          match rec.inflight with
          | some r =>
              let p := tryPair (pushIdle st w rec.service) rec.service
              (p.1, Action.workerReply w ::
                Action.clientReply r.client r.corr payload :: p.2)
          | none => (st, [])
      | none => (st, [])
  | .disconnect w =>
      if (alookup w st.workers).isSome
        then (removeWorker st w, [Action.sessionReset w])
        else (st, [])
  | .request s c corr cmd p =>
      tryPair (pushPending st s ⟨c, corr, cmd, applyHandler hs s cmd p⟩) s

/-- Run the broker from a given state over a list of events, collecting the
emitted actions. -/
def runFrom (hs : Handlers) (st : BrokerState) : List Event → BrokerState × List Action
  | [] => (st, [])
  | ev :: evs =>
      let p := step hs st ev
      let q := runFrom hs p.1 evs
      (q.1, p.2 ++ q.2)

/-- Run the broker from its initial state. -/
def runBroker (hs : Handlers) (events : List Event) : BrokerState × List Action :=
  runFrom hs initBroker events

/-! ### Trace instrumentation for the at-most-one-in-flight invariant -/

/-- Per-worker in-flight counter transition: a forward opens a request, an
accepted reply closes it, a registration teardown resets it. -/
def openStep (w : Nat) (n : Nat) : Action → Nat
  | .forward w' _ => if w' = w then n + 1 else n
  | .workerReply w' => if w' = w then 0 else n
  | .sessionReset w' => if w' = w then 0 else n
  | .clientReply _ _ _ => n

/-- The in-flight counter after a log, starting from `base`. -/
def openAfter (w : Nat) (base : Nat) (log : List Action) : Nat :=
  log.foldl (openStep w) base

/-- The counter stays at most 1 at every point of the log. -/
def OpenBounded (w : Nat) : Nat → List Action → Prop
  | b, [] => b ≤ 1
  | b, a :: rest => b ≤ 1 ∧ OpenBounded w (openStep w b a) rest

/-- As `openStep`, but only a worker REPLY closes a request — the literal
reading of the claim, with no allowance for registration teardowns. -/
def openStepStrict (w : Nat) (n : Nat) : Action → Nat
  | .forward w' _ => if w' = w then n + 1 else n
  | .workerReply w' => if w' = w then 0 else n
  | _ => n

/-- The strict counter after a log. -/
def openAfterStrict (w : Nat) (base : Nat) (log : List Action) : Nat :=
  log.foldl (openStepStrict w) base

/-- 1 when the worker currently has an in-flight request, else 0. -/
def inflightFlag (st : BrokerState) (w : Nat) : Nat :=
  match alookup w st.workers with
  | some rec => if rec.inflight.isSome then 1 else 0
  | none => 0

/-! ### Broker invariants -/

/-- Every worker in an idle queue is registered to that service with an
empty in-flight slot. -/
def IdleInv (st : BrokerState) : Prop :=
  ∀ s sr, alookup s st.services = some sr →
    ∀ w ∈ sr.idle, ∃ rec, alookup w st.workers = some rec ∧
      rec.service = s ∧ rec.inflight = none

/-- Idle queues carry no duplicate identities. -/
def IdleNodup (st : BrokerState) : Prop :=
  ∀ s sr, alookup s st.services = some sr → sr.idle.Nodup

def BrokerInv (st : BrokerState) : Prop := IdleInv st ∧ IdleNodup st

/-- A tracked request originates from a client REQUEST event of the run,
with its payload transformed by the handler registered for its command (or
kept unchanged when none is registered). -/
def ReqOK (hs : Handlers) (E : List Event) (s : String) (r : Request) : Prop :=
  ∃ p0, Event.request s r.client r.corr r.cmd p0 ∈ E ∧
    r.payload = applyHandler hs s r.cmd p0

/-- All requests the broker is tracking (pending or in-flight) originate
from request events. -/
def ProvInv (hs : Handlers) (E : List Event) (st : BrokerState) : Prop :=
  (∀ s sr, alookup s st.services = some sr → ∀ r ∈ sr.pending, ReqOK hs E s r) ∧
  (∀ w rec, alookup w st.workers = some rec →
    ∀ r, rec.inflight = some r → ReqOK hs E rec.service r)

/-- Provenance of an emitted action: forwarded requests are
handler-transformed client requests; client replies answer a submitted
request of the same client identity and correlation id. -/
def LogReqOK (hs : Handlers) (E : List Event) : Action → Prop
  | .forward _ r => ∃ s, ReqOK hs E s r
  | .clientReply c corr _ => ∃ s cmd p0, Event.request s c corr cmd p0 ∈ E
  | _ => True

/-- Per-client distinctness of correlation ids among the submitted
requests, as the spec's concurrency contract assumes. -/
def DistinctCorrPerClient (E : List Event) : Prop :=
  ∀ s1 c corr cmd1 p1 s2 cmd2 p2,
    Event.request s1 c corr cmd1 p1 ∈ E → Event.request s2 c corr cmd2 p2 ∈ E →
    s1 = s2 ∧ cmd1 = cmd2 ∧ p1 = p2

end Frigate

namespace Frigate

/-! ### Concrete instances (test vectors and witness inputs)

The raw rows, labels and threshold are the vectors of
`test_detect_given_tensor_input_should_return_lfiltered_detections` in the
test file. -/

/-- `TEST_DETECT_RAW` from the test file. -/
def testRows : List RawRow :=
  [⟨2, 9/10, (5, 4, 3, 2)⟩, ⟨1, 1/2, (8, 7, 6, 5)⟩, ⟨0, 2/5, (2, 4, 8, 16)⟩]

/-- `mock_load_labels.return_value` from the test file. -/
def testLabels : List String :=
  ["label-1", "label-2", "label-3", "label-4", "label-5"]

/-- A mocked backend constructor returning the fixed raw rows. -/
def testCtor : DetectorConfig → DetectionBackend := fun _ => fun _ => testRows

/-- A registry with only the cpu backend registered. -/
def testRegistry : Registry := [(.cpu, testCtor)]

/-- A cpu detector config with the default (nhwc, 320x320) model. -/
def testCfgNhwc : DetectorConfig := ⟨.cpu, {}⟩

/-- A cpu detector config with the model layout forced to nchw. -/
def testCfgNchw : DetectorConfig := ⟨.cpu, ⟨320, 320, .nchw⟩⟩

/-- The worker `buildWorker testRegistry … testCfgNhwc …` constructs. -/
def wTest : ObjectDetectionWorker := ⟨testCfgNhwc, testCtor testCfgNhwc, testLabels⟩

/-- A worker bound to an nchw model (for the transposition claims). -/
def wNchw : ObjectDetectionWorker := ⟨testCfgNchw, fun _ => [], []⟩

/-- A 4-dimensional tensor that is not fixed by the NHWC→NCHW transpose. -/
def tTiny : NpTensor := ⟨[1, 1, 2, 1], [3, 4]⟩

/-- A small NHWC tensor of shape (1,2,2,3). -/
def tSmall : NpTensor := ⟨[1, 2, 2, 3], List.range 12⟩

/-- A zero tensor of the claimed shape (1,320,320,3). -/
def tBig : NpTensor := ⟨[1, 320, 320, 3], List.replicate (320 * 320 * 3) 0⟩

/-- Broker events: a worker registration torn down and recreated between
two forwarded requests (no reply ever sent). -/
def evsSessionSplit : List Event :=
  [.ready 0 "s", .request "s" 7 1 "DETECT" [], .disconnect 0,
   .ready 0 "s", .request "s" 7 2 "DETECT" []]

/-- Broker events: a full round (request, reply) followed by a second
request to the same, now idle again, worker. -/
def evsReplyRound : List Event :=
  [.ready 0 "s", .request "s" 7 1 "DETECT" [[1]], .reply 0 [[9]],
   .request "s" 7 2 "DETECT" []]

/-- Broker events: one request answered by one reply. -/
def evsSingle : List Event :=
  [.ready 0 "s", .request "s" 7 1 "DETECT" [[1]], .reply 0 [[9]]]

/-- The broker-side shared regions of `start_broker`, for one camera. -/
def shmsCam : List (String × ShmRegion) := [("cam", ⟨3, [9, 8, 7]⟩)]

/-- Handlers with `detect_no_shm` registered for `DETECT_NO_SHM`, as
`start_broker` does. -/
def hsNoShm : Handlers := [("DETECT_NO_SHM", detect_no_shm shmsCam)]

/-- Broker events: a worker ready and a `DETECT_NO_SHM` request whose body
the handler must rewrite. -/
def evsNoShm : List Event :=
  [.ready 0 "cam", .request "cam" 7 1 "DETECT_NO_SHM" [[1], [2], [3]]]

/-! ## Association-list lemmas -/

theorem alookup_aupdate_self {α β : Type} [DecidableEq α] (k : α) (v : β)
    (l : List (α × β)) : alookup k (aupdate k v l) = some v := by
  induction l with
  | nil => simp [alookup, aupdate]
  | cons hd tl ih =>
    obtain ⟨a, b⟩ := hd
    by_cases h : a = k
    · simp [aupdate, h, alookup]
    · simp [aupdate, h, alookup, ih]

theorem alookup_aupdate_ne {α β : Type} [DecidableEq α] {k k' : α} (v : β)
    (l : List (α × β)) (h : k ≠ k') :
    alookup k (aupdate k' v l) = alookup k l := by
  induction l with
  | nil => simp [alookup, aupdate, Ne.symm h]
  | cons hd tl ih =>
    obtain ⟨a, b⟩ := hd
    by_cases ha : a = k'
    · subst ha
      simp [aupdate, alookup, Ne.symm h]
    · simp [aupdate, ha, alookup, ih]

theorem alookup_aremove_self {α β : Type} [DecidableEq α] (k : α)
    (l : List (α × β)) : alookup k (aremove k l) = none := by
  induction l with
  | nil => simp [alookup, aremove]
  | cons hd tl ih =>
    obtain ⟨a, b⟩ := hd
    by_cases h : a = k
    · simp [aremove, h, ih]
    · simp [aremove, h, alookup, ih]

theorem alookup_aremove_ne {α β : Type} [DecidableEq α] {k k' : α}
    (l : List (α × β)) (h : k ≠ k') :
    alookup k (aremove k' l) = alookup k l := by
  induction l with
  | nil => simp [aremove]
  | cons hd tl ih =>
    obtain ⟨a, b⟩ := hd
    by_cases ha : a = k'
    · subst ha
      simp [aremove, alookup, Ne.symm h, ih]
    · simp [aremove, ha, alookup, ih]

/-! ## Claim C7: shared-memory error semantics -/

/-- Claim C7: for every region name and size, `create` fails with
`AlreadyExists` exactly when a region with that name is live, and `attach`
fails with `NotFound` exactly when none is; otherwise both succeed, the
error being surfaced to the immediate caller through the return value. -/
theorem shm_create_attach_error_semantics :
    ∀ (st : ShmState) (name : String) (size : Nat),
      (st.create name size = .error .AlreadyExists ↔ st.live name = true) ∧
      (st.attach name = .error .NotFound ↔ st.live name = false) ∧
      (st.live name = false →
        ∃ st2, st.create name size = .ok st2 ∧ st2.live name = true) ∧
      (st.live name = true → ∃ r, st.attach name = .ok r) := by
  intro st name size
  refine ⟨?_, ?_, ?_, ?_⟩
  · by_cases h : st.live name
    · simp [ShmState.create, h]
    · simp [ShmState.create, h]
  · unfold ShmState.attach ShmState.live
    cases h : alookup name st.regions <;> simp [h]
  · intro h
    refine ⟨⟨(name, ⟨size, List.replicate size 0⟩) :: st.regions⟩, ?_, ?_⟩
    · simp [ShmState.create, h]
    · simp [ShmState.live, alookup]
  · intro h
    unfold ShmState.live at h
    obtain ⟨r, hr⟩ := Option.isSome_iff_exists.mp h
    exact ⟨r, by simp [ShmState.attach, hr]⟩

/-- Witness for C7 at a concrete state: on the empty state `create` does not
fail and succeeds with a live region, and after creation `attach` succeeds
while a second `create` fails with `AlreadyExists`. -/
theorem shm_create_attach_error_semantics_witness :
    (∃ st2, (ShmState.create ⟨[]⟩ "cam" 4 = .ok st2) ∧ st2.live "cam" = true) ∧
    ((⟨[("cam", ⟨4, [0, 0, 0, 0]⟩)]⟩ : ShmState).create "cam" 4 =
      .error .AlreadyExists) ∧
    (∃ r, (⟨[("cam", ⟨4, [0, 0, 0, 0]⟩)]⟩ : ShmState).attach "cam" = .ok r) ∧
    ((⟨[]⟩ : ShmState).attach "cam" = .error .NotFound) := by
  refine ⟨(shm_create_attach_error_semantics ⟨[]⟩ "cam" 4).2.2.1 (by decide),
    ?_, (shm_create_attach_error_semantics ⟨[("cam", ⟨4, [0, 0, 0, 0]⟩)]⟩ "cam" 4).2.2.2
      (by decide), ?_⟩
  · exact (shm_create_attach_error_semantics ⟨[("cam", ⟨4, [0, 0, 0, 0]⟩)]⟩ "cam" 4).1.mpr
      (by decide)
  · exact (shm_create_attach_error_semantics ⟨[]⟩ "cam" 4).2.1.mpr (by decide)

/-! ## Claim C5: `detect_raw` passthrough (corrected) -/

/-- Counterexample to C5 as stated: with an nchw model layout the tensor the
backend receives is not the input tensor (it has been transposed), so
`detect_raw` does not invoke the backend "with that tensor" for every
worker and tensor. -/
theorem detect_raw_passthrough_counterexample :
    ¬ ∀ (w : ObjectDetectionWorker) (t : NpTensor),
        (w.detect_raw_traced t).1 = t ∧ w.detect_raw t = w.detect_api t := by
  intro h
  have h2 := (h wNchw tTiny).1
  have h3 : (wNchw.detect_raw_traced tTiny).1 ≠ tTiny := by decide
  exact h3 h2

/-- Claim C5 (amended): for every tensor input, when the model's input
layout is nhwc (the default) the worker's `detect_raw` invokes the backend
with exactly that tensor; in every case the backend is invoked once, on the
layout-adjusted tensor, and its value is returned unmodified. -/
theorem detect_raw_passthrough_nhwc :
    ∀ (w : ObjectDetectionWorker) (t : NpTensor),
      (w.detector_config.model.input_tensor = .nhwc →
        (w.detect_raw_traced t).1 = t ∧ w.detect_raw t = w.detect_api t) ∧
      w.detect_raw t = w.detect_api ((w.detect_raw_traced t).1) := by
  intro w t
  constructor
  · intro h
    constructor
    · simp [ObjectDetectionWorker.detect_raw_traced, ObjectDetectionWorker.layoutInput, h]
    · simp [ObjectDetectionWorker.detect_raw, ObjectDetectionWorker.detect_raw_traced,
        ObjectDetectionWorker.layoutInput, h]
  · rfl

/-- Witness for the amended C5 on a concrete nhwc worker and tensor. -/
theorem detect_raw_passthrough_nhwc_witness :
    (wTest.detect_raw_traced tSmall).1 = tSmall ∧
    wTest.detect_raw tSmall = wTest.detect_api tSmall :=
  (detect_raw_passthrough_nhwc wTest tSmall).1 rfl

/-! ## Claim C10: nchw transposition -/

/-- Claim C10: when the model's `input_tensor` layout is nchw, `detect_raw`
transposes an NHWC tensor of shape (N,H,W,C) to shape (N,C,H,W) before
invoking the backend; when the layout is nhwc the tensor is passed with its
shape unchanged. -/
theorem detect_raw_transposes_for_nchw :
    ∀ (w : ObjectDetectionWorker) (t : NpTensor),
      (∀ n hh ww c, w.detector_config.model.input_tensor = .nchw →
        t.shape = [n, hh, ww, c] →
        (w.detect_raw_traced t).1 = transposeNHWCtoNCHW t ∧
        (w.detect_raw_traced t).1.shape = [n, c, hh, ww] ∧
        w.detect_raw t = w.detect_api (transposeNHWCtoNCHW t)) ∧
      (w.detector_config.model.input_tensor = .nhwc →
        (w.detect_raw_traced t).1 = t ∧ (w.detect_raw_traced t).1.shape = t.shape) := by
  intro w t
  constructor
  · intro n hh ww c hlay hsh
    have hpass : (w.detect_raw_traced t).1 = transposeNHWCtoNCHW t := by
      simp [ObjectDetectionWorker.detect_raw_traced, ObjectDetectionWorker.layoutInput, hlay]
    refine ⟨hpass, ?_, ?_⟩
    · rw [hpass]
      obtain ⟨sh, d⟩ := t
      simp only at hsh
      subst hsh
      simp [transposeNHWCtoNCHW]
    · simp [ObjectDetectionWorker.detect_raw, ObjectDetectionWorker.detect_raw_traced,
        ObjectDetectionWorker.layoutInput, hlay]
  · intro hlay
    simp [ObjectDetectionWorker.detect_raw_traced, ObjectDetectionWorker.layoutInput, hlay]

/-- Witness for C10 on a concrete nchw worker and a (1,2,2,3) tensor. -/
theorem detect_raw_transposes_for_nchw_witness :
    (wNchw.detect_raw_traced tSmall).1 = transposeNHWCtoNCHW tSmall ∧
    (wNchw.detect_raw_traced tSmall).1.shape = [1, 3, 2, 2] ∧
    wNchw.detect_raw tSmall = wNchw.detect_api (transposeNHWCtoNCHW tSmall) :=
  (detect_raw_transposes_for_nchw wNchw tSmall).1 1 2 2 3 rfl rfl

/-! ## Claim C4: threshold filtering and label resolution -/

/-- Claim C4: a constructed worker loads the label table exactly once at
start, and `detect` returns exactly the raw rows whose score is at least
the threshold, in their original order, each mapped to
`(label table at class_id, score, box)`. -/
theorem worker_detect_filters_and_labels :
    ∀ (reg : Registry) (ll : String → List String) (cfg : DetectorConfig)
      (path : String) (w : ObjectDetectionWorker) (log : BuildLog)
      (t : NpTensor) (threshold : Rat),
      buildWorker reg ll cfg path = (some w, log) →
      log.labelLoads = [path] ∧ w.labels = ll path ∧
      w.detect t threshold =
        ((w.detect_api (w.layoutInput t)).filter (fun d => threshold ≤ d.score)).map
          (fun d => ((ll path).getD d.class_id "unknown", d.score, d.box)) := by
  intro reg ll cfg path w log t threshold hEq
  unfold buildWorker at hEq
  cases halo : alookup cfg.type reg with
  | none =>
    rw [selectBackendCalls, halo] at hEq
    simp at hEq
  | some ctor =>
    rw [selectBackendCalls, halo] at hEq
    have hw : some (⟨cfg, ctor cfg, ll path⟩ : ObjectDetectionWorker) = some w :=
      congrArg Prod.fst hEq
    have hlog : (⟨[path], [(cfg.type, cfg)]⟩ : BuildLog) = log :=
      congrArg Prod.snd hEq
    obtain rfl : w = ⟨cfg, ctor cfg, ll path⟩ := (Option.some_inj.mp hw).symm
    subst hlog
    refine ⟨rfl, rfl, ?_⟩
    simp [ObjectDetectionWorker.detect, ObjectDetectionWorker.detect_raw,
      ObjectDetectionWorker.detect_raw_traced]

/-- Witness for C4: the constructed cpu worker on the test label table. -/
theorem worker_detect_filters_and_labels_witness :
    (⟨["/test_labels.txt"], [(.cpu, testCfgNhwc)]⟩ : BuildLog).labelLoads =
      ["/test_labels.txt"] ∧
    wTest.labels = testLabels ∧
    wTest.detect tSmall (1/2) =
      ((wTest.detect_api (wTest.layoutInput tSmall)).filter
        (fun d => (1/2 : Rat) ≤ d.score)).map
        (fun d => (testLabels.getD d.class_id "unknown", d.score, d.box)) :=
  worker_detect_filters_and_labels testRegistry (fun _ => testLabels) testCfgNhwc
    "/test_labels.txt" wTest ⟨["/test_labels.txt"], [(.cpu, testCfgNhwc)]⟩
    tSmall (1/2) rfl

/-- The filtering and label mapping reproduce `TEST_DETECT_RESULT` of the
source test on `TEST_DETECT_RAW` at threshold 0.5. -/
theorem detect_matches_src_test_vector :
    wTest.detect tSmall (1/2) =
      [("label-3", 9/10, (5, 4, 3, 2)), ("label-2", 1/2, (8, 7, 6, 5))] := by
  norm_num [ObjectDetectionWorker.detect, ObjectDetectionWorker.detect_raw,
    ObjectDetectionWorker.detect_raw_traced, ObjectDetectionWorker.layoutInput,
    wTest, testCtor, testRows, testLabels, testCfgNhwc, List.filter, List.getD]

/-! ## Claim C9: only the configured backend type is constructed -/

/-- Claim C9: constructing a worker calls exactly the backend constructor
registered for the configured detector type, exactly once, with the
detector config; the construction is independent of the constructors
registered for every other type, so no other backend is constructed. -/
theorem worker_constructs_only_configured_backend :
    ∀ (reg : Registry) (ll : String → List String) (cfg : DetectorConfig)
      (path : String) (ctor : DetectorConfig → DetectionBackend),
      alookup cfg.type reg = some ctor →
      (buildWorker reg ll cfg path).2.backendCalls = [(cfg.type, cfg)] ∧
      (∃ w, (buildWorker reg ll cfg path).1 = some w ∧ w.detect_api = ctor cfg) ∧
      (∀ reg2 : Registry, alookup cfg.type reg2 = alookup cfg.type reg →
        buildWorker reg2 ll cfg path = buildWorker reg ll cfg path) := by
  intro reg ll cfg path ctor h
  refine ⟨?_, ?_, ?_⟩
  · simp [buildWorker, selectBackendCalls, h]
  · exact ⟨⟨cfg, ctor cfg, ll path⟩, by simp [buildWorker, selectBackendCalls, h], rfl⟩
  · intro reg2 h2
    rw [buildWorker, buildWorker, selectBackendCalls, selectBackendCalls, h, h2.trans h]

/-- Witness for C9: the cpu-only registry, and a registry with an extra
edgetpu entry that cannot influence the construction. -/
theorem worker_constructs_only_configured_backend_witness :
    (buildWorker testRegistry (fun _ => testLabels) testCfgNhwc "/l").2.backendCalls =
      [(.cpu, testCfgNhwc)] ∧
    (∃ w, (buildWorker testRegistry (fun _ => testLabels) testCfgNhwc "/l").1 = some w ∧
      w.detect_api = testCtor testCfgNhwc) ∧
    buildWorker [(.cpu, testCtor), (.edgetpu, testCtor)] (fun _ => testLabels)
        testCfgNhwc "/l" =
      buildWorker testRegistry (fun _ => testLabels) testCfgNhwc "/l" := by
  have h := worker_constructs_only_configured_backend testRegistry (fun _ => testLabels)
    testCfgNhwc "/l" testCtor rfl
  exact ⟨h.1, h.2.1, h.2.2 [(.cpu, testCtor), (.edgetpu, testCtor)] rfl⟩

/-! ## Claim C8: the client blocks for one reply or times out -/

/-- Claim C8: the client's wait returns the payload of the first reply
matching its correlation id, regardless of anything delivered afterwards
(so at most one reply is consumed per request), and fails with
`DetectionTimeout` when no matching reply arrives within the configured
poll budget; no retry is performed. -/
theorem client_detect_reply_or_timeout :
    (∀ (corr n : Nat) (pre : List (Nat × List Nat)) (p : List Nat)
      (rest : List (Nat × List Nat)),
      (∀ q ∈ pre, q.1 ≠ corr) → pre.length < n →
      awaitReply corr n (pre ++ (corr, p) :: rest) = .ok p) ∧
    (∀ (corr n : Nat) (inc : List (Nat × List Nat)),
      (∀ i, i < n → ∀ q, inc[i]? = some q → q.1 ≠ corr) →
      awaitReply corr n inc = .error .DetectionTimeout) := by
  constructor
  · intro corr n pre
    induction pre generalizing n with
    | nil =>
      intro p rest _ hn
      obtain ⟨m, rfl⟩ : ∃ m, n = m + 1 := ⟨n - 1, by omega⟩
      simp [awaitReply]
    | cons q0 pre ih =>
      intro p rest hne hn
      obtain ⟨m, rfl⟩ : ∃ m, n = m + 1 := ⟨n - 1, by omega⟩
      obtain ⟨c0, p0⟩ := q0
      have hc0 : c0 ≠ corr := hne (c0, p0) (List.mem_cons_self _ _)
      simp only [List.cons_append, awaitReply, if_neg hc0]
      refine ih m p rest (fun q hq => hne q (List.mem_cons_of_mem _ hq)) ?_
      have hlen : (List.cons (c0, p0) pre).length = pre.length + 1 := rfl
      omega
  · intro corr n
    induction n with
    | zero => intro inc _; rfl
    | succ m ih =>
      intro inc hno
      cases inc with
      | nil => rfl
      | cons q0 rest =>
        obtain ⟨c0, p0⟩ := q0
        have hc0 : c0 ≠ corr := by
          have h0 := hno 0 (Nat.succ_pos m) (c0, p0)
          simp at h0
          exact h0
        simp only [awaitReply, if_neg hc0]
        exact ih rest
          (fun i hi q hq => hno (i + 1) (Nat.succ_lt_succ hi) q (by simpa using hq))

/-- Witness for C8: a foreign reply is skipped, the matching reply is
returned even when another matching reply follows, and an all-foreign
stream times out. -/
theorem client_detect_reply_or_timeout_witness :
    awaitReply 5 3 ([(1, [0])] ++ (5, [42]) :: [(5, [99])]) = .ok [42] ∧
    awaitReply 5 2 [(1, []), (2, [])] = .error .DetectionTimeout := by
  constructor
  · exact client_detect_reply_or_timeout.1 5 3 [(1, [0])] [42] [(5, [99])]
      (by decide) (by decide)
  · refine client_detect_reply_or_timeout.2 5 2 [(1, []), (2, [])] ?_
    intro i hi q hq
    interval_cases i
    · simp at hq
      subst hq
      decide
    · simp at hq
      subst hq
      decide

/-! ## Claim C1: the shared-memory path is a transparent optimization -/

/-- Claim C1: for every (1,320,320,3) uint8 tensor, the shared-memory path
(write the tensor into the named region, submit a handle-only request) and
the inline path (submit the serialized tensor in the request body) produce
the same backend output — the same raw rows, written to the out region and
carried in the reply — over both the IPC and TCP transports. -/
theorem shm_inline_roundtrip_equivalence :
    ∀ (tr tr' : Transport) (backend : DetectionBackend) (camera : String)
      (t : NpTensor),
      t.shape = [1, 320, 320, 3] → t.data.length = 320 * 320 * 3 →
      (∀ b ∈ t.data, b < 256) →
      runShmDetect tr backend {} camera t = runInlineDetect tr' backend {} camera t ∧
      runShmDetect tr backend {} camera t =
        some ⟨(flattenRows (backend t)).take outFloatCount, backend t⟩ := by
  intro tr tr' backend camera t hsh hlen _hbytes
  obtain ⟨sh, d⟩ := t
  simp only at hsh hlen
  subst hsh
  have hcount : shapeCount [1, 320, 320, 3] = 320 * 320 * 3 := by
    norm_num [shapeCount]
  have hle : d.length ≤ inputShmSize := by
    rw [hlen]
    norm_num [inputShmSize]
  have hdtake : d.take (shapeCount [1, 320, 320, 3]) = d := by
    rw [hcount]
    exact List.take_of_length_le (le_of_eq hlen)
  have hdeser : deserializeTensor [1, 320, 320, 3] d = ⟨[1, 320, 320, 3], d⟩ := by
    unfold deserializeTensor
    rw [hdtake]
  have hcreate : ShmState.create ⟨[]⟩ camera inputShmSize =
      .ok ⟨[(camera, ⟨inputShmSize, List.replicate inputShmSize 0⟩)]⟩ := by
    simp [ShmState.create, ShmState.live, alookup]
  have hwrite : (⟨[(camera, ⟨inputShmSize, List.replicate inputShmSize 0⟩)]⟩ :
      ShmState).write camera d =
      ⟨[(camera, ⟨inputShmSize,
        d ++ (List.replicate inputShmSize 0).drop d.length⟩)]⟩ := by
    simp [ShmState.write, alookup, aupdate, List.take_of_length_le hle]
  have hatt : (⟨[(camera, ⟨inputShmSize,
      d ++ (List.replicate inputShmSize 0).drop d.length⟩)]⟩ : ShmState).attach
        camera =
      .ok ⟨inputShmSize, d ++ (List.replicate inputShmSize 0).drop d.length⟩ := by
    simp [ShmState.attach, alookup]
  have hread : (⟨[(camera, ⟨inputShmSize,
      d ++ (List.replicate inputShmSize 0).drop d.length⟩)]⟩ : ShmState).read
        camera (shapeCount [1, 320, 320, 3]) = some d := by
    simp only [ShmState.read, alookup, if_pos rfl, Option.map_some]
    rw [hcount]
    exact congrArg some (List.take_left' hlen)
  have hmodel : ([1, ({} : ModelConfig).height, ({} : ModelConfig).width, 3] :
      List Nat) = [1, 320, 320, 3] := rfl
  have hshm : runShmDetect tr backend {} camera ⟨[1, 320, 320, 3], d⟩ =
      some ⟨(flattenRows (backend ⟨[1, 320, 320, 3], d⟩)).take outFloatCount,
        backend ⟨[1, 320, 320, 3], d⟩⟩ := by
    unfold runShmDetect
    rw [hcreate]
    simp only [serializeTensor, hwrite, transportDeliver, hmodel, hatt, hread, hdeser]
  have hinl : runInlineDetect tr' backend {} camera ⟨[1, 320, 320, 3], d⟩ =
      some ⟨(flattenRows (backend ⟨[1, 320, 320, 3], d⟩)).take outFloatCount,
        backend ⟨[1, 320, 320, 3], d⟩⟩ := by
    unfold runInlineDetect
    simp only [transportDeliver, serializeTensor, hmodel, hdeser]
  exact ⟨hshm.trans hinl.symm, hshm⟩

/-- Witness for C1 on the zero tensor of shape (1,320,320,3): both paths
agree and return the backend rows. -/
theorem shm_inline_roundtrip_equivalence_witness :
    runShmDetect .ipc (fun _ => testRows) {} "cam" tBig =
      runInlineDetect .tcp (fun _ => testRows) {} "cam" tBig ∧
    runShmDetect .ipc (fun _ => testRows) {} "cam" tBig =
      some ⟨(flattenRows ((fun _ => testRows) tBig)).take outFloatCount,
        (fun _ => testRows) tBig⟩ :=
  shm_inline_roundtrip_equivalence .ipc .tcp (fun _ => testRows) "cam" tBig
    rfl
    (by
      rw [show tBig.data = List.replicate (320 * 320 * 3) 0 from rfl]
      exact List.length_replicate _ _)
    (by
      intro b hb
      rw [show tBig.data = List.replicate (320 * 320 * 3) 0 from rfl] at hb
      have hb0 : b = 0 := List.eq_of_mem_replicate hb
      omega)

/-! ## Broker proof infrastructure: counters -/

theorem inflightFlag_le_one (st : BrokerState) (w : Nat) : inflightFlag st w ≤ 1 := by
  unfold inflightFlag
  cases alookup w st.workers with
  | none => exact Nat.zero_le 1
  | some rec => by_cases h : rec.inflight.isSome <;> simp [h]

theorem openAfter_nil (w b : Nat) : openAfter w b [] = b := rfl

theorem openAfter_cons (w b : Nat) (a : Action) (l : List Action) :
    openAfter w b (a :: l) = openAfter w (openStep w b a) l := rfl

theorem openAfter_append (w b : Nat) (l1 l2 : List Action) :
    openAfter w b (l1 ++ l2) = openAfter w (openAfter w b l1) l2 :=
  List.foldl_append _ _ _ _

theorem openBounded_le {w b : Nat} {l : List Action} (h : OpenBounded w b l) :
    b ≤ 1 := by
  cases l with
  | nil => exact h
  | cons a rest => exact h.1

theorem openBounded_append {w : Nat} (l1 l2 : List Action) (b : Nat) :
    OpenBounded w b (l1 ++ l2) ↔
      OpenBounded w b l1 ∧ OpenBounded w (openAfter w b l1) l2 := by
  induction l1 generalizing b with
  | nil =>
    simp only [List.nil_append, openAfter_nil]
    exact ⟨fun h => ⟨openBounded_le h, h⟩, fun h => h.2⟩
  | cons a l1 ih =>
    simp only [List.cons_append, OpenBounded, openAfter_cons, List.append_eq]
    rw [ih]
    exact ⟨fun h => ⟨⟨h.1, h.2.1⟩, h.2.2⟩, fun h => ⟨h.1.1, h.1.2, h.2⟩⟩

/-! ## Broker proof infrastructure: state lemmas -/

theorem getService_eq_of_lookup {st : BrokerState} {s : String} {sr : ServiceRec}
    (h : alookup s st.services = some sr) : getService st s = sr := by
  rw [getService, h]
  rfl

theorem getService_eq_default {st : BrokerState} {s : String}
    (h : alookup s st.services = none) : getService st s = ⟨[], []⟩ := by
  rw [getService, h]
  rfl

/-- `removeWorker` preserves the invariants, erases the target worker's
record while leaving every other record alone, and leaves the target in no
idle queue. -/
theorem removeWorker_spec (hs : Handlers) (E : List Event) (st : BrokerState)
    (w0 : Nat) (hIdle : IdleInv st) (hNd : IdleNodup st) (hProv : ProvInv hs E st) :
    IdleInv (removeWorker st w0) ∧ IdleNodup (removeWorker st w0) ∧
    ProvInv hs E (removeWorker st w0) ∧
    alookup w0 (removeWorker st w0).workers = none ∧
    (∀ w, w ≠ w0 → alookup w (removeWorker st w0).workers = alookup w st.workers) ∧
    (∀ s' sr', alookup s' (removeWorker st w0).services = some sr' →
      w0 ∉ sr'.idle) := by
  unfold removeWorker
  cases hrec : alookup w0 st.workers with
  | none =>
    refine ⟨hIdle, hNd, hProv, hrec, fun w _ => rfl, ?_⟩
    intro s' sr' hs' hmem
    obtain ⟨rec, hr, -, -⟩ := hIdle s' sr' hs' w0 hmem
    rw [hrec] at hr
    exact Option.noConfusion hr
  | some rec0 =>
    refine ⟨?_, ?_, ⟨?_, ?_⟩, alookup_aremove_self w0 st.workers,
      fun w hw => alookup_aremove_ne st.workers hw, ?_⟩
    · intro s' sr' hs' w hw
      by_cases hseq : s' = rec0.service
      · subst hseq
        rw [alookup_aupdate_self] at hs'
        obtain rfl := (Option.some_inj.mp hs').symm
        rw [List.mem_filter] at hw
        obtain ⟨hwmem, hwne⟩ := hw
        have hwne0 : w ≠ w0 := by simpa using hwne
        cases halos : alookup rec0.service st.services with
        | none =>
          rw [getService_eq_default halos] at hwmem
          simp at hwmem
        | some srr =>
          rw [getService_eq_of_lookup halos] at hwmem
          obtain ⟨rec, hr, hsv, hin⟩ := hIdle rec0.service srr halos w hwmem
          exact ⟨rec, by rw [alookup_aremove_ne _ hwne0]; exact hr, hsv, hin⟩
      · rw [alookup_aupdate_ne _ _ hseq] at hs'
        obtain ⟨rec, hr, hsv, hin⟩ := hIdle s' sr' hs' w hw
        have hwne0 : w ≠ w0 := by
          intro heq
          subst heq
          rw [hrec] at hr
          cases hr
          exact hseq hsv.symm
        exact ⟨rec, by rw [alookup_aremove_ne _ hwne0]; exact hr, hsv, hin⟩
    · intro s' sr' hs'
      by_cases hseq : s' = rec0.service
      · subst hseq
        rw [alookup_aupdate_self] at hs'
        obtain rfl := (Option.some_inj.mp hs').symm
        cases halos : alookup rec0.service st.services with
        | none =>
          rw [getService_eq_default halos]
          simp
        | some srr =>
          rw [getService_eq_of_lookup halos]
          exact (hNd rec0.service srr halos).filter _
      · rw [alookup_aupdate_ne _ _ hseq] at hs'
        exact hNd s' sr' hs'
    · intro s' sr' hs' r hr
      by_cases hseq : s' = rec0.service
      · subst hseq
        rw [alookup_aupdate_self] at hs'
        obtain rfl := (Option.some_inj.mp hs').symm
        cases halos : alookup rec0.service st.services with
        | none =>
          rw [getService_eq_default halos] at hr
          simp at hr
        | some srr =>
          rw [getService_eq_of_lookup halos] at hr
          exact hProv.1 rec0.service srr halos r hr
      · rw [alookup_aupdate_ne _ _ hseq] at hs'
        exact hProv.1 s' sr' hs' r hr
    · intro w rec hw r hrin
      by_cases hwe : w = w0
      · subst hwe
        rw [alookup_aremove_self] at hw
        exact Option.noConfusion hw
      · rw [alookup_aremove_ne _ hwe] at hw
        exact hProv.2 w rec hw r hrin
    · intro s' sr' hs' hmem
      by_cases hseq : s' = rec0.service
      · subst hseq
        rw [alookup_aupdate_self] at hs'
        obtain rfl := (Option.some_inj.mp hs').symm
        rw [List.mem_filter] at hmem
        simp at hmem
      · rw [alookup_aupdate_ne _ _ hseq] at hs'
        obtain ⟨rec, hr, hsv, -⟩ := hIdle s' sr' hs' w0 hmem
        rw [hrec] at hr
        cases hr
        exact hseq hsv.symm

/-- `tryPair` preserves the invariants; its actions have provenance, move
the per-worker counters from the pre-state flags to the post-state flags,
and never push a counter above 1. -/
theorem tryPair_spec (hs : Handlers) (E : List Event) (st : BrokerState)
    (s : String) (hIdle : IdleInv st) (hNd : IdleNodup st)
    (hProv : ProvInv hs E st) :
    IdleInv (tryPair st s).1 ∧ IdleNodup (tryPair st s).1 ∧
    ProvInv hs E (tryPair st s).1 ∧
    (∀ a ∈ (tryPair st s).2, LogReqOK hs E a) ∧
    (∀ w, openAfter w (inflightFlag st w) (tryPair st s).2 =
      inflightFlag (tryPair st s).1 w) ∧
    (∀ w, OpenBounded w (inflightFlag st w) (tryPair st s).2) := by
  cases hidle : (getService st s).idle with
  | nil =>
    have heq : tryPair st s = (st, []) := by
      unfold tryPair
      dsimp only
      rw [hidle]
    rw [heq]
    exact ⟨hIdle, hNd, hProv, by simp, fun w => rfl,
      fun w => inflightFlag_le_one st w⟩
  | cons w0 idles =>
    cases hpend : (getService st s).pending with
    | nil =>
      have heq : tryPair st s = (st, []) := by
        unfold tryPair
        dsimp only
        rw [hidle, hpend]
      rw [heq]
      exact ⟨hIdle, hNd, hProv, by simp, fun w => rfl,
        fun w => inflightFlag_le_one st w⟩
    | cons r0 pends =>
      have heq : tryPair st s =
          (⟨aupdate w0 ⟨s, some r0⟩ st.workers,
            aupdate s ⟨idles, pends⟩ st.services⟩, [.forward w0 r0]) := by
        unfold tryPair
        dsimp only
        rw [hidle, hpend]
      cases halos : alookup s st.services with
      | none =>
        rw [getService_eq_default halos] at hidle
        exact absurd hidle (by simp)
      | some sr =>
        rw [getService_eq_of_lookup halos] at hidle hpend
        have hw0mem : w0 ∈ sr.idle := by
          rw [hidle]
          exact List.mem_cons_self _ _
        obtain ⟨rec0, hrec0, hsv0, hin0⟩ := hIdle s sr halos w0 hw0mem
        have hnodup : (w0 :: idles).Nodup := hidle ▸ hNd s sr halos
        have hw0nidle : w0 ∉ idles := (List.nodup_cons.mp hnodup).1
        have hr0 : ReqOK hs E s r0 := hProv.1 s sr halos r0 (by
          rw [hpend]
          exact List.mem_cons_self _ _)
        rw [heq]
        refine ⟨?_, ?_, ⟨?_, ?_⟩, ?_, ?_, ?_⟩
        · intro s' sr' hs' w hw
          by_cases hseq : s' = s
          · subst hseq
            rw [alookup_aupdate_self] at hs'
            obtain rfl := (Option.some_inj.mp hs').symm
            have hwne0 : w ≠ w0 := fun h => hw0nidle (h ▸ hw)
            have hwmem : w ∈ sr.idle := by
              rw [hidle]
              exact List.mem_cons_of_mem _ hw
            obtain ⟨rec, hr, hsv, hin⟩ := hIdle s' sr halos w hwmem
            exact ⟨rec, by rw [alookup_aupdate_ne _ _ hwne0]; exact hr, hsv, hin⟩
          · rw [alookup_aupdate_ne _ _ hseq] at hs'
            obtain ⟨rec, hr, hsv, hin⟩ := hIdle s' sr' hs' w hw
            have hwne0 : w ≠ w0 := by
              intro heqw
              subst heqw
              rw [hrec0] at hr
              cases hr
              exact hseq (hsv.symm.trans hsv0)
            exact ⟨rec, by rw [alookup_aupdate_ne _ _ hwne0]; exact hr, hsv, hin⟩
        · intro s' sr' hs'
          by_cases hseq : s' = s
          · subst hseq
            rw [alookup_aupdate_self] at hs'
            obtain rfl := (Option.some_inj.mp hs').symm
            exact (List.nodup_cons.mp hnodup).2
          · rw [alookup_aupdate_ne _ _ hseq] at hs'
            exact hNd s' sr' hs'
        · intro s' sr' hs' r hr
          by_cases hseq : s' = s
          · subst hseq
            rw [alookup_aupdate_self] at hs'
            obtain rfl := (Option.some_inj.mp hs').symm
            refine hProv.1 s' sr halos r ?_
            rw [hpend]
            exact List.mem_cons_of_mem _ hr
          · rw [alookup_aupdate_ne _ _ hseq] at hs'
            exact hProv.1 s' sr' hs' r hr
        · intro w rec hw r hrin
          by_cases hwe : w = w0
          · subst hwe
            rw [alookup_aupdate_self] at hw
            obtain rfl := (Option.some_inj.mp hw).symm
            obtain rfl : r0 = r := by
              have := hrin
              simp only at this
              exact Option.some_inj.mp this
            exact hr0
          · rw [alookup_aupdate_ne _ _ hwe] at hw
            exact hProv.2 w rec hw r hrin
        · intro a ha
          rw [List.mem_singleton] at ha
          subst ha
          exact ⟨s, hr0⟩
        · intro w
          by_cases hwe : w = w0
          · subst hwe
            have hflag0 : inflightFlag st w = 0 := by
              simp [inflightFlag, hrec0, hin0]
            have hflag1 : inflightFlag
                (⟨aupdate w ⟨s, some r0⟩ st.workers,
                  aupdate s ⟨idles, pends⟩ st.services⟩ : BrokerState) w = 1 := by
              simp [inflightFlag, alookup_aupdate_self]
            simp [openAfter_cons, openAfter_nil, openStep, hflag0, hflag1]
          · simp [openAfter_cons, openAfter_nil, openStep, Ne.symm hwe,
              inflightFlag, alookup_aupdate_ne _ _ hwe]
        · intro w
          by_cases hwe : w = w0
          · subst hwe
            have hflag0 : inflightFlag st w = 0 := by
              simp [inflightFlag, hrec0, hin0]
            simp [OpenBounded, openStep, hflag0]
          · have hb := inflightFlag_le_one st w
            simp [OpenBounded, openStep, Ne.symm hwe, hb]

/-- `pushIdle` preserves the invariants when the worker sits in no idle
queue; afterwards the worker is registered idle (flag 0) and every other
flag is unchanged. -/
theorem pushIdle_spec (hs : Handlers) (E : List Event) (st0 : BrokerState)
    (w0 : Nat) (s : String) (hIdle : IdleInv st0) (hNd : IdleNodup st0)
    (hProv : ProvInv hs E st0)
    (hnoidle : ∀ s' sr', alookup s' st0.services = some sr' → w0 ∉ sr'.idle) :
    IdleInv (pushIdle st0 w0 s) ∧ IdleNodup (pushIdle st0 w0 s) ∧
    ProvInv hs E (pushIdle st0 w0 s) ∧
    inflightFlag (pushIdle st0 w0 s) w0 = 0 ∧
    (∀ w, w ≠ w0 → inflightFlag (pushIdle st0 w0 s) w = inflightFlag st0 w) := by
  refine ⟨?_, ?_, ⟨?_, ?_⟩, ?_, ?_⟩
  · intro s' sr' hs' w hw
    by_cases hseq : s' = s
    · subst hseq
      rw [pushIdle] at hs'
      rw [alookup_aupdate_self] at hs'
      obtain rfl := (Option.some_inj.mp hs').symm
      rcases List.mem_append.mp hw with hw1 | hw1
      · cases halos : alookup s' st0.services with
        | none =>
          rw [getService_eq_default halos] at hw1
          simp at hw1
        | some srx =>
          rw [getService_eq_of_lookup halos] at hw1
          obtain ⟨rec, hr, hsv, hin⟩ := hIdle s' srx halos w hw1
          have hwne0 : w ≠ w0 := fun h => hnoidle s' srx halos (h ▸ hw1)
          refine ⟨rec, ?_, hsv, hin⟩
          rw [pushIdle]
          rw [alookup_aupdate_ne _ _ hwne0]
          exact hr
      · rw [List.mem_singleton] at hw1
        subst hw1
        refine ⟨⟨s', none⟩, ?_, rfl, rfl⟩
        rw [pushIdle]
        exact alookup_aupdate_self _ _ _
    · rw [pushIdle] at hs'
      rw [alookup_aupdate_ne _ _ hseq] at hs'
      obtain ⟨rec, hr, hsv, hin⟩ := hIdle s' sr' hs' w hw
      have hwne0 : w ≠ w0 := fun h => hnoidle s' sr' hs' (h ▸ hw)
      refine ⟨rec, ?_, hsv, hin⟩
      rw [pushIdle]
      rw [alookup_aupdate_ne _ _ hwne0]
      exact hr
  · intro s' sr' hs'
    by_cases hseq : s' = s
    · subst hseq
      rw [pushIdle] at hs'
      rw [alookup_aupdate_self] at hs'
      obtain rfl := (Option.some_inj.mp hs').symm
      cases halos : alookup s' st0.services with
      | none =>
        rw [getService_eq_default halos]
        simp
      | some srx =>
        rw [getService_eq_of_lookup halos]
        refine List.Nodup.append (hNd s' srx halos) (List.nodup_singleton w0) ?_
        intro x hx hx1
        rw [List.mem_singleton] at hx1
        subst hx1
        exact hnoidle s' srx halos hx
    · rw [pushIdle] at hs'
      rw [alookup_aupdate_ne _ _ hseq] at hs'
      exact hNd s' sr' hs'
  · intro s' sr' hs' r hr
    by_cases hseq : s' = s
    · subst hseq
      rw [pushIdle] at hs'
      rw [alookup_aupdate_self] at hs'
      obtain rfl := (Option.some_inj.mp hs').symm
      cases halos : alookup s' st0.services with
      | none =>
        rw [getService_eq_default halos] at hr
        simp at hr
      | some srx =>
        rw [getService_eq_of_lookup halos] at hr
        exact hProv.1 s' srx halos r hr
    · rw [pushIdle] at hs'
      rw [alookup_aupdate_ne _ _ hseq] at hs'
      exact hProv.1 s' sr' hs' r hr
  · intro w rec hw r hrin
    by_cases hwe : w = w0
    · subst hwe
      rw [pushIdle] at hw
      rw [alookup_aupdate_self] at hw
      obtain rfl := (Option.some_inj.mp hw).symm
      exact absurd hrin (by simp)
    · rw [pushIdle] at hw
      rw [alookup_aupdate_ne _ _ hwe] at hw
      exact hProv.2 w rec hw r hrin
  · simp [inflightFlag, pushIdle, alookup_aupdate_self]
  · intro w hwe
    simp [inflightFlag, pushIdle, alookup_aupdate_ne _ _ hwe]

/-- `pushPending` preserves the invariants when the appended request has
provenance; worker records and flags are untouched. -/
theorem pushPending_spec (hs : Handlers) (E : List Event) (st0 : BrokerState)
    (s : String) (r0 : Request) (hIdle : IdleInv st0) (hNd : IdleNodup st0)
    (hProv : ProvInv hs E st0) (hnew : ReqOK hs E s r0) :
    IdleInv (pushPending st0 s r0) ∧ IdleNodup (pushPending st0 s r0) ∧
    ProvInv hs E (pushPending st0 s r0) ∧
    (∀ w, inflightFlag (pushPending st0 s r0) w = inflightFlag st0 w) := by
  refine ⟨?_, ?_, ⟨?_, ?_⟩, fun w => rfl⟩
  · intro s' sr' hs' w hw
    by_cases hseq : s' = s
    · subst hseq
      rw [pushPending] at hs'
      rw [alookup_aupdate_self] at hs'
      obtain rfl := (Option.some_inj.mp hs').symm
      cases halos : alookup s' st0.services with
      | none =>
        rw [getService_eq_default halos] at hw
        simp at hw
      | some srx =>
        rw [getService_eq_of_lookup halos] at hw
        exact hIdle s' srx halos w hw
    · rw [pushPending] at hs'
      rw [alookup_aupdate_ne _ _ hseq] at hs'
      exact hIdle s' sr' hs' w hw
  · intro s' sr' hs'
    by_cases hseq : s' = s
    · subst hseq
      rw [pushPending] at hs'
      rw [alookup_aupdate_self] at hs'
      obtain rfl := (Option.some_inj.mp hs').symm
      cases halos : alookup s' st0.services with
      | none =>
        rw [getService_eq_default halos]
        simp
      | some srx =>
        rw [getService_eq_of_lookup halos]
        exact hNd s' srx halos
    · rw [pushPending] at hs'
      rw [alookup_aupdate_ne _ _ hseq] at hs'
      exact hNd s' sr' hs'
  · intro s' sr' hs' r hr
    by_cases hseq : s' = s
    · subst hseq
      rw [pushPending] at hs'
      rw [alookup_aupdate_self] at hs'
      obtain rfl := (Option.some_inj.mp hs').symm
      rcases List.mem_append.mp hr with hr1 | hr1
      · cases halos : alookup s' st0.services with
        | none =>
          rw [getService_eq_default halos] at hr1
          simp at hr1
        | some srx =>
          rw [getService_eq_of_lookup halos] at hr1
          exact hProv.1 s' srx halos r hr1
      · rw [List.mem_singleton] at hr1
        subst hr1
        exact hnew
    · rw [pushPending] at hs'
      rw [alookup_aupdate_ne _ _ hseq] at hs'
      exact hProv.1 s' sr' hs' r hr
  · intro w rec hw r hrin
    exact hProv.2 w rec hw r hrin

/-- One broker step preserves the invariants; its actions have provenance,
advance the per-worker counters from the pre-state flags to the post-state
flags, and keep every counter at most 1 throughout. -/
theorem step_spec (hs : Handlers) (E : List Event) (st : BrokerState)
    (ev : Event) (hEv : ev ∈ E) (hIdle : IdleInv st) (hNd : IdleNodup st)
    (hProv : ProvInv hs E st) :
    IdleInv (step hs st ev).1 ∧ IdleNodup (step hs st ev).1 ∧
    ProvInv hs E (step hs st ev).1 ∧
    (∀ a ∈ (step hs st ev).2, LogReqOK hs E a) ∧
    (∀ w, openAfter w (inflightFlag st w) (step hs st ev).2 =
      inflightFlag (step hs st ev).1 w) ∧
    (∀ w, OpenBounded w (inflightFlag st w) (step hs st ev).2) := by
  cases ev with
  | heartbeat w0 =>
    exact ⟨hIdle, hNd, hProv, by simp [step], fun w => rfl,
      fun w => inflightFlag_le_one st w⟩
  | ready w0 s =>
    obtain ⟨hIdle1, hNd1, hProv1, hw0none, hothers, hnoidle⟩ :=
      removeWorker_spec hs E st w0 hIdle hNd hProv
    obtain ⟨hIdle2, hNd2, hProv2, hflag0, hflagne⟩ :=
      pushIdle_spec hs E (removeWorker st w0) w0 s hIdle1 hNd1 hProv1 hnoidle
    obtain ⟨hIdleF, hNdF, hProvF, hLogF, hEqF, hBdF⟩ :=
      tryPair_spec hs E (pushIdle (removeWorker st w0) w0 s) s hIdle2 hNd2 hProv2
    have hne1 : ∀ w, w ≠ w0 →
        inflightFlag (pushIdle (removeWorker st w0) w0 s) w = inflightFlag st w := by
      intro w hwe
      have h1 : inflightFlag (removeWorker st w0) w = inflightFlag st w := by
        simp [inflightFlag, hothers w hwe]
      rw [hflagne w hwe, h1]
    cases hknown : alookup w0 st.workers with
    | some rec0 =>
      have hstep : step hs st (.ready w0 s) =
          ((tryPair (pushIdle (removeWorker st w0) w0 s) s).1,
           Action.sessionReset w0 ::
             (tryPair (pushIdle (removeWorker st w0) w0 s) s).2) := by
        simp [step, hknown]
      rw [hstep]
      have hb : ∀ w, openStep w (inflightFlag st w) (Action.sessionReset w0) =
          inflightFlag (pushIdle (removeWorker st w0) w0 s) w := by
        intro w
        by_cases hwe : w = w0
        · subst hwe
          simp [openStep, hflag0]
        · simp only [openStep]
          rw [if_neg (Ne.symm hwe), hne1 w hwe]
      refine ⟨hIdleF, hNdF, hProvF, ?_, ?_, ?_⟩
      · intro a ha
        rcases List.mem_cons.mp ha with rfl | ha2
        · trivial
        · exact hLogF a ha2
      · intro w
        rw [openAfter_cons, hb w]
        exact hEqF w
      · intro w
        simp only [OpenBounded]
        refine ⟨inflightFlag_le_one st w, ?_⟩
        rw [hb w]
        exact hBdF w
    | none =>
      have hstep : step hs st (.ready w0 s) =
          ((tryPair (pushIdle (removeWorker st w0) w0 s) s).1,
           (tryPair (pushIdle (removeWorker st w0) w0 s) s).2) := by
        simp [step, hknown]
      rw [hstep]
      have hb0 : ∀ w, inflightFlag st w =
          inflightFlag (pushIdle (removeWorker st w0) w0 s) w := by
        intro w
        by_cases hwe : w = w0
        · subst hwe
          rw [hflag0]
          simp [inflightFlag, hknown]
        · exact (hne1 w hwe).symm
      refine ⟨hIdleF, hNdF, hProvF, hLogF, ?_, ?_⟩
      · intro w
        rw [hb0 w]
        exact hEqF w
      · intro w
        rw [hb0 w]
        exact hBdF w
  | reply w0 payload =>
    cases hrec : alookup w0 st.workers with
    | none =>
      have hstep : step hs st (.reply w0 payload) = (st, []) := by
        simp [step, hrec]
      rw [hstep]
      exact ⟨hIdle, hNd, hProv, by simp, fun w => rfl,
        fun w => inflightFlag_le_one st w⟩
    | some rec0 =>
      cases hin : rec0.inflight with
      | none =>
        have hstep : step hs st (.reply w0 payload) = (st, []) := by
          simp [step, hrec, hin]
        rw [hstep]
        exact ⟨hIdle, hNd, hProv, by simp, fun w => rfl,
          fun w => inflightFlag_le_one st w⟩
      | some r1 =>
        have hnoidle0 : ∀ s' sr', alookup s' st.services = some sr' →
            w0 ∉ sr'.idle := by
          intro s' sr' hs' hmem
          obtain ⟨rec, hr, -, hinn⟩ := hIdle s' sr' hs' w0 hmem
          rw [hrec] at hr
          cases hr
          rw [hin] at hinn
          exact Option.noConfusion hinn
        obtain ⟨hIdle2, hNd2, hProv2, hflag0, hflagne⟩ :=
          pushIdle_spec hs E st w0 rec0.service hIdle hNd hProv hnoidle0
        obtain ⟨hIdleF, hNdF, hProvF, hLogF, hEqF, hBdF⟩ :=
          tryPair_spec hs E (pushIdle st w0 rec0.service) rec0.service
            hIdle2 hNd2 hProv2
        have hstep : step hs st (.reply w0 payload) =
            ((tryPair (pushIdle st w0 rec0.service) rec0.service).1,
             Action.workerReply w0 ::
               Action.clientReply r1.client r1.corr payload ::
               (tryPair (pushIdle st w0 rec0.service) rec0.service).2) := by
          simp [step, hrec, hin]
        rw [hstep]
        have hreq : ReqOK hs E rec0.service r1 := hProv.2 w0 rec0 hrec r1 hin
        have hb : ∀ w, openStep w (openStep w (inflightFlag st w)
            (Action.workerReply w0))
            (Action.clientReply r1.client r1.corr payload) =
            inflightFlag (pushIdle st w0 rec0.service) w := by
          intro w
          by_cases hwe : w = w0
          · subst hwe
            simp [openStep, hflag0]
          · simp only [openStep]
            rw [if_neg (Ne.symm hwe), hflagne w hwe]
        refine ⟨hIdleF, hNdF, hProvF, ?_, ?_, ?_⟩
        · intro a ha
          rcases List.mem_cons.mp ha with rfl | ha2
          · trivial
          · rcases List.mem_cons.mp ha2 with rfl | ha3
            · obtain ⟨p0, hp0, -⟩ := hreq
              exact ⟨rec0.service, r1.cmd, p0, hp0⟩
            · exact hLogF a ha3
        · intro w
          rw [openAfter_cons, openAfter_cons, hb w]
          exact hEqF w
        · intro w
          have h1le : openStep w (inflightFlag st w) (Action.workerReply w0) ≤ 1 := by
            by_cases hwe : w = w0
            · subst hwe
              simp [openStep]
            · simp only [openStep]
              rw [if_neg (Ne.symm hwe)]
              exact inflightFlag_le_one st w
          have h2 : OpenBounded w (openStep w (openStep w (inflightFlag st w)
              (Action.workerReply w0))
              (Action.clientReply r1.client r1.corr payload))
              (tryPair (pushIdle st w0 rec0.service) rec0.service).2 := by
            rw [hb w]
            exact hBdF w
          simp only [OpenBounded]
          exact ⟨inflightFlag_le_one st w, h1le, h2⟩
  | disconnect w0 =>
    cases hknown : alookup w0 st.workers with
    | none =>
      have hstep : step hs st (.disconnect w0) = (st, []) := by
        simp [step, hknown]
      rw [hstep]
      exact ⟨hIdle, hNd, hProv, by simp, fun w => rfl,
        fun w => inflightFlag_le_one st w⟩
    | some rec0 =>
      obtain ⟨hIdle1, hNd1, hProv1, hw0none, hothers, -⟩ :=
        removeWorker_spec hs E st w0 hIdle hNd hProv
      have hstep : step hs st (.disconnect w0) =
          (removeWorker st w0, [Action.sessionReset w0]) := by
        simp [step, hknown]
      rw [hstep]
      refine ⟨hIdle1, hNd1, hProv1, ?_, ?_, ?_⟩
      · intro a ha
        rw [List.mem_singleton] at ha
        subst ha
        trivial
      · intro w
        rw [openAfter_cons, openAfter_nil]
        by_cases hwe : w = w0
        · subst hwe
          simp [openStep, inflightFlag, hw0none]
        · simp only [openStep]
          rw [if_neg (Ne.symm hwe)]
          simp [inflightFlag, hothers w hwe]
      · intro w
        simp only [OpenBounded]
        refine ⟨inflightFlag_le_one st w, ?_⟩
        by_cases hwe : w = w0
        · subst hwe
          simp [openStep]
        · simp only [openStep]
          rw [if_neg (Ne.symm hwe)]
          exact inflightFlag_le_one st w
  | request s c corr cmd p =>
    have hnew : ReqOK hs E s ⟨c, corr, cmd, applyHandler hs s cmd p⟩ :=
      ⟨p, hEv, rfl⟩
    obtain ⟨hIdle2, hNd2, hProv2, hflags⟩ :=
      pushPending_spec hs E st s ⟨c, corr, cmd, applyHandler hs s cmd p⟩
        hIdle hNd hProv hnew
    obtain ⟨hIdleF, hNdF, hProvF, hLogF, hEqF, hBdF⟩ :=
      tryPair_spec hs E (pushPending st s ⟨c, corr, cmd, applyHandler hs s cmd p⟩)
        s hIdle2 hNd2 hProv2
    have hstep : step hs st (.request s c corr cmd p) =
        tryPair (pushPending st s ⟨c, corr, cmd, applyHandler hs s cmd p⟩) s := rfl
    rw [hstep]
    refine ⟨hIdleF, hNdF, hProvF, hLogF, ?_, ?_⟩
    · intro w
      have h := hEqF w
      rwa [hflags w] at h
    · intro w
      have h := hBdF w
      rwa [hflags w] at h

/-- Running the broker from an invariant state over events of the run. -/
theorem runFrom_spec (hs : Handlers) (E : List Event) :
    ∀ (evs : List Event) (st : BrokerState), (∀ e ∈ evs, e ∈ E) →
      IdleInv st → IdleNodup st → ProvInv hs E st →
      IdleInv (runFrom hs st evs).1 ∧ IdleNodup (runFrom hs st evs).1 ∧
      ProvInv hs E (runFrom hs st evs).1 ∧
      (∀ a ∈ (runFrom hs st evs).2, LogReqOK hs E a) ∧
      (∀ w, openAfter w (inflightFlag st w) (runFrom hs st evs).2 =
        inflightFlag (runFrom hs st evs).1 w) ∧
      (∀ w, OpenBounded w (inflightFlag st w) (runFrom hs st evs).2) := by
  intro evs
  induction evs with
  | nil =>
    intro st _ hIdle hNd hProv
    exact ⟨hIdle, hNd, hProv, by simp [runFrom], fun w => rfl,
      fun w => inflightFlag_le_one st w⟩
  | cons ev evs ih =>
    intro st hsub hIdle hNd hProv
    have hEv : ev ∈ E := hsub ev (List.mem_cons_self _ _)
    obtain ⟨hI1, hN1, hP1, hL1, hE1, hB1⟩ :=
      step_spec hs E st ev hEv hIdle hNd hProv
    obtain ⟨hI2, hN2, hP2, hL2, hE2, hB2⟩ :=
      ih (step hs st ev).1 (fun e he => hsub e (List.mem_cons_of_mem _ he))
        hI1 hN1 hP1
    have hrun : runFrom hs st (ev :: evs) =
        ((runFrom hs (step hs st ev).1 evs).1,
         (step hs st ev).2 ++ (runFrom hs (step hs st ev).1 evs).2) := rfl
    rw [hrun]
    refine ⟨hI2, hN2, hP2, ?_, ?_, ?_⟩
    · intro a ha
      rcases List.mem_append.mp ha with h | h
      · exact hL1 a h
      · exact hL2 a h
    · intro w
      rw [openAfter_append, hE1 w]
      exact hE2 w
    · intro w
      rw [openBounded_append]
      exact ⟨hB1 w, by rw [hE1 w]; exact hB2 w⟩

/-- The full broker run: the idle-queue invariant holds at the end, every
action has provenance, and every per-worker counter stays at most 1. -/
theorem runBroker_spec (hs : Handlers) (E : List Event) :
    IdleInv (runBroker hs E).1 ∧
    (∀ a ∈ (runBroker hs E).2, LogReqOK hs E a) ∧
    (∀ w, OpenBounded w 0 (runBroker hs E).2) := by
  have hIdle0 : IdleInv initBroker := by
    intro s sr h
    simp [alookup] at h
  have hNd0 : IdleNodup initBroker := by
    intro s sr h
    simp [alookup] at h
  have hProv0 : ProvInv hs E initBroker := by
    constructor
    · intro s sr h
      simp [alookup] at h
    · intro w rec h
      simp [alookup] at h
  obtain ⟨hI, hN, hP, hL, hEq, hBd⟩ :=
    runFrom_spec hs E E initBroker (fun e he => he) hIdle0 hNd0 hProv0
  exact ⟨hI, hL, fun w => hBd w⟩

/-- If the counter is already positive, a later forward to the same worker
forces a closing action (reply or registration teardown) in between. -/
theorem openBounded_reset_between {w : Nat} {r' : Request} :
    ∀ (l2 l3 : List Action) (b : Nat), 1 ≤ b →
      OpenBounded w b (l2 ++ Action.forward w r' :: l3) →
      ∃ a ∈ l2, a = Action.workerReply w ∨ a = Action.sessionReset w := by
  intro l2
  induction l2 with
  | nil =>
    intro l3 b hb h
    rw [List.nil_append] at h
    have h2 : b ≤ 1 ∧ OpenBounded w (openStep w b (Action.forward w r')) l3 := h
    have hle := openBounded_le h2.2
    have hplus : openStep w b (Action.forward w r') = b + 1 := by
      simp [openStep]
    rw [hplus] at hle
    omega
  | cons a l2 ih =>
    intro l3 b hb h
    rw [List.cons_append] at h
    have h2 : b ≤ 1 ∧
        OpenBounded w (openStep w b a) (l2 ++ Action.forward w r' :: l3) := h
    by_cases hres : a = Action.workerReply w ∨ a = Action.sessionReset w
    · exact ⟨a, List.mem_cons_self _ _, hres⟩
    · have hstep1 : 1 ≤ openStep w b a := by
        cases a with
        | forward w2 r2 =>
          by_cases hww : w2 = w
          · simp only [openStep]
            rw [if_pos hww]
            omega
          · simp only [openStep]
            rw [if_neg hww]
            exact hb
        | workerReply w2 =>
          have hne : w2 ≠ w := by
            intro he
            exact hres (Or.inl (by rw [he]))
          simp only [openStep]
          rw [if_neg hne]
          exact hb
        | sessionReset w2 =>
          have hne : w2 ≠ w := by
            intro he
            exact hres (Or.inr (by rw [he]))
          simp only [openStep]
          rw [if_neg hne]
          exact hb
        | clientReply c2 corr2 p2 => exact hb
      obtain ⟨aa, haa, hor⟩ := ih l3 (openStep w b a) hstep1 h2.2
      exact ⟨aa, List.mem_cons_of_mem _ haa, hor⟩

/-! ## Claim C2: at most one in-flight request per worker (corrected) -/

/-- Counterexample to C2 as stated: with a DISCONNECT and a fresh READY
between them, worker 0 is forwarded two requests without ever sending a
reply, so over arbitrary READY/DISCONNECT/REQUEST interleavings the
unqualified claim fails. -/
theorem broker_double_forward_counterexample :
    ¬ ∀ (hs : Handlers) (events : List Event) (w : Nat) (r r' : Request)
        (l1 l2 l3 : List Action),
        (runBroker hs events).2 =
          l1 ++ Action.forward w r :: l2 ++ Action.forward w r' :: l3 →
        Action.workerReply w ∈ l2 := by
  intro h
  have h2 := h [] evsSessionSplit 0 ⟨7, 1, "DETECT", []⟩ ⟨7, 2, "DETECT", []⟩
    [] [Action.sessionReset 0] [] (by decide)
  have h3 : Action.workerReply 0 ∉ [Action.sessionReset 0] := by decide
  exact h3 h2

/-- Claim C2 (amended): in every run, a worker that has been forwarded a
request is not forwarded another before an accepted REPLY from it — unless
its registration was torn down (DISCONNECT or fresh READY) in between; and
every worker sitting in an idle queue has an empty in-flight slot. -/
theorem broker_at_most_one_inflight :
    ∀ (hs : Handlers) (events : List Event),
      (∀ w r r' l1 l2 l3, (runBroker hs events).2 =
          l1 ++ Action.forward w r :: l2 ++ Action.forward w r' :: l3 →
        ∃ a ∈ l2, a = Action.workerReply w ∨ a = Action.sessionReset w) ∧
      (∀ s sr, alookup s (runBroker hs events).1.services = some sr →
        ∀ w ∈ sr.idle,
          ∃ rec, alookup w (runBroker hs events).1.workers = some rec ∧
            rec.inflight = none) := by
  intro hs events
  obtain ⟨hI, hL, hBd⟩ := runBroker_spec hs events
  constructor
  · intro w r r' l1 l2 l3 hlog
    have hlog2 : (runBroker hs events).2 =
        l1 ++ (Action.forward w r :: (l2 ++ (Action.forward w r' :: l3))) := by
      rw [hlog, List.append_assoc, List.cons_append]
    have hb := hBd w
    rw [hlog2, openBounded_append] at hb
    have hb2 : openAfter w 0 l1 ≤ 1 ∧ OpenBounded w
        (openStep w (openAfter w 0 l1) (Action.forward w r))
        (l2 ++ Action.forward w r' :: l3) := hb.2
    refine openBounded_reset_between l2 l3 _ ?_ hb2.2
    have hplus : openStep w (openAfter w 0 l1) (Action.forward w r) =
        openAfter w 0 l1 + 1 := by
      simp [openStep]
    rw [hplus]
    omega
  · intro s sr h w hw
    obtain ⟨rec, hrec, -, hin⟩ := hI s sr h w hw
    exact ⟨rec, hrec, hin⟩

/-- Witness for the amended C2: in `evsReplyRound` the worker's reply
stands between its two forwards, and after `evsSingle` the worker is idle
with an empty in-flight slot. -/
theorem broker_at_most_one_inflight_witness :
    (∃ a ∈ [Action.workerReply 0, Action.clientReply 7 1 [[9]]],
      a = Action.workerReply 0 ∨ a = Action.sessionReset 0) ∧
    (∃ rec, alookup 0 (runBroker [] evsSingle).1.workers = some rec ∧
      rec.inflight = none) := by
  constructor
  · exact (broker_at_most_one_inflight [] evsReplyRound).1 0
      ⟨7, 1, "DETECT", [[1]]⟩ ⟨7, 2, "DETECT", []⟩ []
      [Action.workerReply 0, Action.clientReply 7 1 [[9]]] [] (by decide)
  · exact (broker_at_most_one_inflight [] evsSingle).2 "s" ⟨[0], []⟩
      (by decide) 0 (by decide)

/-! ## Claim C3: correlation ids are echoed and match replies to requests -/

/-- Claim C3: every reply routed to a client carries the client identity and
correlation id of a request that client submitted; with per-client distinct
correlation ids the matching request is unique, regardless of completion
order. -/
theorem broker_reply_matches_correlation :
    ∀ (hs : Handlers) (E : List Event) (c corr : Nat) (p : List (List Nat)),
      Action.clientReply c corr p ∈ (runBroker hs E).2 →
      ∃ s cmd p0, Event.request s c corr cmd p0 ∈ E ∧
        (DistinctCorrPerClient E →
          ∀ s' cmd' p', Event.request s' c corr cmd' p' ∈ E →
            s' = s ∧ cmd' = cmd ∧ p' = p0) := by
  intro hs E c corr p hmem
  obtain ⟨hI, hL, hBd⟩ := runBroker_spec hs E
  have h : ∃ s cmd p0, Event.request s c corr cmd p0 ∈ E := hL _ hmem
  obtain ⟨s, cmd, p0, hreq⟩ := h
  refine ⟨s, cmd, p0, hreq, ?_⟩
  intro hdist s' cmd' p' hreq'
  exact hdist s' c corr cmd' p' s cmd p0 hreq' hreq

/-- Witness for C3 on `evsSingle`: the delivered reply (client 7,
correlation id 1) matches the submitted request. -/
theorem broker_reply_matches_correlation_witness :
    ∃ s cmd p0, Event.request s 7 1 cmd p0 ∈ evsSingle ∧
      (DistinctCorrPerClient evsSingle →
        ∀ s' cmd' p', Event.request s' 7 1 cmd' p' ∈ evsSingle →
          s' = s ∧ cmd' = cmd ∧ p' = p0) :=
  broker_reply_matches_correlation [] evsSingle 7 1 [[9]] (by decide)

/-! ## Claim C6: request handlers transform payloads before forwarding -/

/-- Claim C6: every request forwarded to a worker stems from a submitted
client request; its payload is the registered handler's transformation of
the submitted payload when one is registered for the command, and the
submitted payload unchanged otherwise. -/
theorem broker_forwards_handled_payload :
    ∀ (hs : Handlers) (E : List Event) (w : Nat) (r : Request),
      Action.forward w r ∈ (runBroker hs E).2 →
      ∃ s p0, Event.request s r.client r.corr r.cmd p0 ∈ E ∧
        (∀ h, alookup r.cmd hs = some h → r.payload = h s p0) ∧
        (alookup r.cmd hs = none → r.payload = p0) := by
  intro hs E w r hmem
  obtain ⟨hI, hL, hBd⟩ := runBroker_spec hs E
  have h : ∃ s, ReqOK hs E s r := hL _ hmem
  obtain ⟨s, p0, hreq, hpay⟩ := h
  refine ⟨s, p0, hreq, ?_, ?_⟩
  · intro hh hlook
    rw [hpay]
    unfold applyHandler
    rw [hlook]
  · intro hlook
    rw [hpay]
    unfold applyHandler
    rw [hlook]

/-- Witness for C6: with the test file's `detect_no_shm` handler registered
for `DETECT_NO_SHM`, the forwarded body keeps its first two frames and
carries the shared-region bytes in place of the rest. -/
theorem broker_forwards_handled_payload_witness :
    ((runBroker hsNoShm evsNoShm).2 =
      [Action.forward 0 ⟨7, 1, "DETECT_NO_SHM", [[1], [2], [9, 8, 7]]⟩]) ∧
    (∃ s p0, Event.request s 7 1 "DETECT_NO_SHM" p0 ∈ evsNoShm ∧
      (∀ h, alookup "DETECT_NO_SHM" hsNoShm = some h →
        ([[1], [2], [9, 8, 7]] : List (List Nat)) = h s p0) ∧
      (alookup "DETECT_NO_SHM" hsNoShm = none →
        ([[1], [2], [9, 8, 7]] : List (List Nat)) = p0)) := by
  constructor
  · decide
  · exact broker_forwards_handled_payload hsNoShm evsNoShm 0
      ⟨7, 1, "DETECT_NO_SHM", [[1], [2], [9, 8, 7]]⟩ (by decide)

end Frigate
